import Mathlib

/-!
Verification of the `CategoryCrossing` preprocessing layer
(`keras/layers/preprocessing/category_crossing.py`).

The layer is embedded shallowly: a column of categorical data is a batch of
per-example value lists together with a representation tag (dense / sparse /
ragged); the depth configuration, subset enumeration, per-subset crossing, and
final concatenation follow the Python source line by line.  The per-subset
Cartesian cross itself is performed in the source by the external
`tf.ragged.cross` / `tf.sparse.cross` kernels, so its value-level semantics is
modelled from the specification.
-/

namespace CategoryCrossing

/-- The representation of a column or of the layer output: a plain dense
tensor, a `SparseTensor`, or a `RaggedTensor`. -/
inductive Rep where
  | dense
  | sparse
  | ragged
  deriving DecidableEq

/-- `tf_utils.is_ragged(inp)` as a test on the representation tag. -/
def Rep.isRagged : Rep → Bool
  | .ragged => true
  | _ => false

/-- `isinstance(inp, tf.SparseTensor)` as a test on the representation tag. -/
def Rep.isSparse : Rep → Bool
  | .sparse => true
  | _ => false

/-- One input column: its representation tag and, for every example of the
batch, the ordered list of that example's categorical values (already in
string form, as the crossing kernels stringify values). -/
structure Column where
  rep : Rep
  rows : List (List String)
  deriving DecidableEq

/-- The `depth` constructor argument: `None`, a Python `int`, or a
tuple/list of ints. -/
inductive DepthSpec where
  | none
  | int (d : Nat)
  | list (ds : List Nat)
  deriving DecidableEq

/-- Python truthiness of the stored `depth` value, as tested by
`self._depth_tuple if self.depth else (len(inputs),)`:
`None` and `0` and `[]`/`()` are falsy. -/
def DepthSpec.truthy : DepthSpec → Bool
  | .none => false
  | .int d => d != 0
  | .list ds => !ds.isEmpty

/-- The `_depth_tuple` attribute computed in `__init__`: the given tuple, or
`tuple(range(1, depth + 1))` for an integer depth.  For `depth=None` the
attribute is never set; it is also never read, so it is modelled as `[]`. -/
def DepthSpec.depthTuple : DepthSpec → List Nat
  | .none => []
  | .int d => List.range' 1 d
  | .list ds => ds

/-- The configuration state a `CategoryCrossing` instance carries:
`self.depth`, `self.separator`, and `self._depth_tuple`. -/
structure Layer where
  depth : DepthSpec
  separator : String
  depth_tuple : List Nat
  deriving DecidableEq

/-- `CategoryCrossing.__init__(depth=..., separator=...)`. -/
def init (depth : DepthSpec) (separator : String) : Layer :=
  ⟨depth, separator, depth.depthTuple⟩

/-- The layer-specific part of `get_config()`: the flat mapping holding the
`depth` and `separator` entries. -/
structure Config where
  depth : DepthSpec
  separator : String
  deriving DecidableEq

/-- `CategoryCrossing.get_config()`, restricted to the two entries this layer
adds to the base configuration. -/
def get_config (l : Layer) : Config :=
  ⟨l.depth, l.separator⟩

/-- `itertools.combinations`: all sublists of length `k`, in the lexicographic
order of the chosen positions. -/
def combinations {α : Type} : Nat → List α → List (List α)
  | 0, _ => [[]]
  | _ + 1, [] => []
  | k + 1, x :: xs =>
      (combinations k xs).map (fun t => x :: t) ++ combinations (k + 1) xs

/-- The Cartesian product of a list of lists, the last factor varying
fastest (standard nested-loop enumeration order). -/
def listProd {α : Type} : List (List α) → List (List α)
  | [] => [[]]
  | l :: ls => l.flatMap (fun v => (listProd ls).map (fun t => v :: t))

/-- The number of examples in the batch, read off the first input column. -/
def batchOf (inputs : List Column) : Nat :=
  ((inputs.head?).map (fun c => c.rows.length)).getD 0

/-- Modelled from the spec: the value-level semantics of the external
`tf.ragged.cross` / `tf.sparse.cross` kernels invoked by `partial_crossing`,
which are not part of this repository.  For each example, every token formed
by taking one value from each column's value list for that example (last list
varying fastest), joined with the separator in column order. -/
def crossRows (separator : String) (batch : Nat) (cols : List Column) :
    List (List String) :=
  (List.range batch).map (fun i =>
    (listProd (cols.map (fun c => c.rows.getD i []))).map
      (fun t => String.intercalate separator t))

/-- The message of the `ValueError` raised by `partial_crossing` for a
non-default separator with ragged output. -/
def ragged_sep_msg (separator : String) : String :=
  "Non-default separator with ragged input is not implemented. " ++
    "Received separator: " ++ separator ++ "."

/-- `CategoryCrossing.partial_crossing(partial_inputs, ragged_out,
sparse_out)`: the crossed output of one subset of the inputs, or the
separator error in the ragged case.  All three branches produce the same
token values; they differ only in the representation of the result, which is
tracked once for the whole call by `outputRep`. -/
def partial_crossing (separator : String) (ragged_out sparse_out : Bool)
    (batch : Nat) (partial_inputs : List Column) :
    Except String (List (List String)) :=
  if ragged_out then
    if separator ≠ "_X_" then Except.error (ragged_sep_msg separator)
    else Except.ok (crossRows separator batch partial_inputs)
  else if sparse_out then Except.ok (crossRows separator batch partial_inputs)
  else Except.ok (crossRows separator batch partial_inputs)

/-- The message of the `ValueError` raised in `call` when a requested depth
exceeds the number of inputs; it names the input count and the depth. -/
def depth_error_msg (n d : Nat) : String :=
  "Number of inputs cannot be less than depth. Received " ++ toString n ++
    " input tensors, and depth " ++ toString d ++ "."

/-- The inner loop of `call`: cross each subset in turn, collecting the
per-subset output columns (the `outputs` list), stopping at the first
error. -/
def crossSubsets (separator : String) (ragged_out sparse_out : Bool)
    (batch : Nat) : List (List Column) → Except String (List (List (List String)))
  | [] => Except.ok []
  | s :: rest =>
    match partial_crossing separator ragged_out sparse_out batch s with
    | Except.error e => Except.error e
    | Except.ok o =>
      match crossSubsets separator ragged_out sparse_out batch rest with
      | Except.error e => Except.error e
      | Except.ok os => Except.ok (o :: os)

/-- The outer loop of `call` over `depth_tuple`: for each depth, first the
`len(inputs) < depth` check, then one crossed output column per
`itertools.combinations(inputs, depth)` subset. -/
def depthLoop (separator : String) (ragged_out sparse_out : Bool)
    (batch : Nat) (inputs : List Column) :
    List Nat → Except String (List (List (List String)))
  | [] => Except.ok []
  | d :: rest =>
    if inputs.length < d then Except.error (depth_error_msg inputs.length d)
    else
      match crossSubsets separator ragged_out sparse_out batch
          (combinations d inputs) with
      | Except.error e => Except.error e
      | Except.ok os =>
        match depthLoop separator ragged_out sparse_out batch inputs rest with
        | Except.error e => Except.error e
        | Except.ok os2 => Except.ok (os ++ os2)

/-- `depth_tuple = self._depth_tuple if self.depth else (len(inputs),)`. -/
def effectiveDepths (l : Layer) (inputs : List Column) : List Nat :=
  if l.depth.truthy then l.depth_tuple else [inputs.length]

/-- The `outputs` list accumulated by `CategoryCrossing.call` just before the
final concatenation: one output column per enumerated subset, or the first
error raised. -/
def callOutputs (l : Layer) (inputs : List Column) :
    Except String (List (List (List String))) :=
  depthLoop l.separator (inputs.any (fun c => c.rep.isRagged))
    (!(inputs.any (fun c => c.rep.isRagged)) &&
      inputs.any (fun c => c.rep.isSparse))
    (batchOf inputs) inputs (effectiveDepths l inputs)

/-- The representation of the final output, from the `ragged_out` /
`sparse_out` flags computed in `call`. -/
def outputRep (inputs : List Column) : Rep :=
  if inputs.any (fun c => c.rep.isRagged) then Rep.ragged
  else if inputs.any (fun c => c.rep.isSparse) then Rep.sparse
  else Rep.dense

/-- The final `tf.concat(outputs, axis=1)` / `tf.sparse.concat(axis=1, ...)`:
each example's row is the concatenation, in subset order, of that example's
tokens from every per-subset output column. -/
def concatCols (batch : Nat) (outs : List (List (List String))) :
    List (List String) :=
  (List.range batch).map (fun i => (outs.map (fun o => o.getD i [])).flatten)

/-- `CategoryCrossing.call(inputs)`: the output representation together with
the concatenated per-example rows, or the first error raised. -/
def call (l : Layer) (inputs : List Column) :
    Except String (Rep × List (List String)) :=
  match callOutputs l inputs with
  | Except.error e => Except.error e
  | Except.ok outs => Except.ok (outputRep inputs, concatCols (batchOf inputs) outs)

/-- The ordered list of column subsets the call enumerates (the Depth
Planner's output, with columns substituted for their indices). -/
def plannedSubsets (l : Layer) (inputs : List Column) : List (List Column) :=
  (effectiveDepths l inputs).flatMap (fun d => combinations d inputs)

/-- The message of the `ValueError` raised by `compute_output_shape` on an
input shape of rank other than 2 (the Python message also echoes the
received shapes). -/
def rank2_msg : String := "Inputs must be rank 2."

/-- The loop of `compute_output_shape`: validate that every shape has rank 2
and pick up the batch dimension of the first shape whose batch dimension the
accumulator has not already captured (`if batch_size is None`). -/
def find_batch : Option Nat → List (List (Option Nat)) →
    Except String (Option Nat)
  | b, [] => Except.ok b
  | b, s :: rest =>
    if s.length ≠ 2 then Except.error rank2_msg
    else find_batch (if b.isNone then s.getD 0 Option.none else b) rest

/-- `CategoryCrossing.compute_output_shape(input_shape)`: shapes are lists of
optional dimensions (`None` = dynamic); the output shape is
`[batch_size, None]`. -/
def compute_output_shape (input_shapes : List (List (Option Nat))) :
    Except String (List (Option Nat)) :=
  match find_batch Option.none input_shapes with
  | Except.error e => Except.error e
  | Except.ok b => Except.ok [b, Option.none]

/-- The three example columns used throughout the source documentation:
`a=[[1],[4]]`, `b=[[2],[5]]`, `c=[[3],[6]]`, all dense. -/
def exA : Column := ⟨Rep.dense, [["1"], ["4"]]⟩

/-- Second documentation example column. -/
def exB : Column := ⟨Rep.dense, [["2"], ["5"]]⟩

/-- Third documentation example column. -/
def exC : Column := ⟨Rep.dense, [["3"], ["6"]]⟩

/-- The documentation example input list `[a, b, c]`. -/
def exInputs : List Column := [exA, exB, exC]

/-- A ragged example column: two values for the first example, none for the
second. -/
def exRagged : Column := ⟨Rep.ragged, [["a", "b"], []]⟩

/-! ### Combinatorial facts about `combinations` -/

theorem length_combinations {α : Type} :
    ∀ (k : Nat) (l : List α), (combinations k l).length = Nat.choose l.length k
  | 0, l => by simp [combinations]
  | k + 1, [] => by simp [combinations]
  | k + 1, x :: xs => by
      simp [combinations, length_combinations k xs,
        length_combinations (k + 1) xs, Nat.choose_succ_succ]

theorem combinations_eq_nil_of_lt {α : Type} {k : Nat} {l : List α}
    (h : l.length < k) : combinations k l = [] := by
  have hlen := length_combinations k l
  rw [Nat.choose_eq_zero_of_lt h] at hlen
  exact List.length_eq_zero.mp hlen

theorem combinations_ne_nil {α : Type} {k : Nat} {l : List α}
    (h : k ≤ l.length) : combinations k l ≠ [] := by
  intro hnil
  have hlen := length_combinations k l
  rw [hnil] at hlen
  have hpos := Nat.choose_pos h
  simp at hlen
  omega

theorem mem_combinations {α : Type} :
    ∀ (k : Nat) (l s : List α),
      s ∈ combinations k l ↔ s.Sublist l ∧ s.length = k
  | 0, l, s => by
      simp only [combinations, List.mem_singleton]
      constructor
      · rintro rfl
        exact ⟨List.nil_sublist l, rfl⟩
      · rintro ⟨-, h⟩
        exact List.length_eq_zero.mp h
  | k + 1, [], s => by
      simp only [combinations, List.not_mem_nil, false_iff, not_and,
        List.sublist_nil]
      rintro rfl
      simp
  | k + 1, x :: xs, s => by
      simp only [combinations, List.mem_append, List.mem_map]
      rw [List.sublist_cons_iff]
      constructor
      · rintro (⟨t, ht, rfl⟩ | hs)
        · have hm := (mem_combinations k xs t).mp ht
          exact ⟨Or.inr ⟨t, rfl, hm.1⟩, by simp [hm.2]⟩
        · have hm := (mem_combinations (k + 1) xs s).mp hs
          exact ⟨Or.inl hm.1, hm.2⟩
      · rintro ⟨hsub | ⟨r, rfl, hr⟩, hlen⟩
        · exact Or.inr ((mem_combinations (k + 1) xs s).mpr ⟨hsub, hlen⟩)
        · refine Or.inl ⟨r, (mem_combinations k xs r).mpr ⟨hr, ?_⟩, rfl⟩
          simpa using hlen

theorem combinations_map {α β : Type} (f : α → β) :
    ∀ (k : Nat) (l : List α),
      combinations k (l.map f) = (combinations k l).map (List.map f)
  | 0, l => by simp [combinations]
  | k + 1, [] => by simp [combinations]
  | k + 1, x :: xs => by
      simp only [List.map_cons, combinations, combinations_map f k xs,
        combinations_map f (k + 1) xs, List.map_append, List.map_map]
      rfl

theorem map_getD_range {α : Type} (d : α) :
    ∀ l : List α, (List.range l.length).map (fun i => l.getD i d) = l
  | [] => rfl
  | x :: xs => by
      rw [List.length_cons, List.range_succ_eq_map, List.map_cons,
        List.map_map]
      have hcomp :
          ((fun i => (x :: xs).getD i d) ∘ Nat.succ) = fun i => xs.getD i d := by
        funext i
        rfl
      rw [hcomp]
      simp only [List.getD_cons_zero, map_getD_range d xs]

theorem pairwise_lex_combinations {α : Type} {r : α → α → Prop} :
    ∀ (k : Nat) (l : List α), l.Pairwise r →
      (combinations k l).Pairwise (List.Lex r)
  | 0, l, _ => by simp [combinations]
  | k + 1, [], _ => by simp [combinations]
  | k + 1, x :: xs, h => by
      rcases List.pairwise_cons.mp h with ⟨hx, hxs⟩
      simp only [combinations]
      refine List.pairwise_append.mpr
        ⟨?_, pairwise_lex_combinations (k + 1) xs hxs, ?_⟩
      · exact List.pairwise_map.mpr
          ((pairwise_lex_combinations k xs hxs).imp fun hl => List.Lex.cons hl)
      · rintro a ha b hb
        rcases List.mem_map.mp ha with ⟨s, _, rfl⟩
        have hbmem := (mem_combinations (k + 1) xs b).mp hb
        cases b with
        | nil => exact absurd hbmem.2 (by simp)
        | cons y t =>
            exact List.Lex.rel (hx y (hbmem.1.subset (List.mem_cons_self y t)))

theorem combinations_length_self {α : Type} :
    ∀ l : List α, combinations l.length l = [l]
  | [] => rfl
  | x :: xs => by
      rw [List.length_cons]
      simp only [combinations]
      rw [combinations_length_self xs,
        combinations_eq_nil_of_lt (Nat.lt_succ_self xs.length)]
      rfl

/-! ### Facts about `listProd` and `crossRows` -/

theorem sum_map_const {α : Type} (c : Nat) :
    ∀ l : List α, (l.map (fun _ => c)).sum = l.length * c
  | [] => by simp
  | x :: xs => by
      simp [sum_map_const c xs, Nat.succ_mul, Nat.add_comm]

theorem length_listProd {α : Type} :
    ∀ ls : List (List α), (listProd ls).length = (ls.map List.length).prod
  | [] => rfl
  | l :: ls => by
      show (l.flatMap fun v => (listProd ls).map fun t => v :: t).length = _
      rw [List.length_flatMap]
      simp only [Function.comp_def, List.length_map]
      rw [sum_map_const, length_listProd ls, List.map_cons, List.prod_cons]

theorem crossRows_getD {separator : String} {batch i : Nat} (hi : i < batch)
    (cols : List Column) :
    (crossRows separator batch cols).getD i [] =
      (listProd (cols.map (fun c => c.rows.getD i []))).map
        (fun t => String.intercalate separator t) := by
  unfold crossRows
  rw [List.getD_eq_getElem _ _ (by simpa using hi), List.getElem_map,
    List.getElem_range]

/-! ### Behaviour of the crossing loops -/

theorem isRagged_iff {r : Rep} : r.isRagged = true ↔ r = Rep.ragged := by
  cases r <;> simp [Rep.isRagged]

theorem isSparse_iff {r : Rep} : r.isSparse = true ↔ r = Rep.sparse := by
  cases r <;> simp [Rep.isSparse]

theorem any_isRagged_eq_false {inputs : List Column}
    (h : ∀ c ∈ inputs, c.rep ≠ Rep.ragged) :
    (inputs.any fun c => c.rep.isRagged) = false := by
  simp only [List.any_eq_false]
  intro c hc
  simp [isRagged_iff, h c hc]

theorem any_isRagged_eq_true {inputs : List Column}
    (h : ∃ c ∈ inputs, c.rep = Rep.ragged) :
    (inputs.any fun c => c.rep.isRagged) = true := by
  rcases h with ⟨c, hc, hr⟩
  exact List.any_eq_true.mpr ⟨c, hc, isRagged_iff.mpr hr⟩

theorem partial_crossing_ok {separator : String} {ragged_out : Bool}
    (sparse_out : Bool) (h : separator = "_X_" ∨ ragged_out = false)
    (batch : Nat) (s : List Column) :
    partial_crossing separator ragged_out sparse_out batch s =
      Except.ok (crossRows separator batch s) := by
  rcases h with h | h
  · subst h
    cases ragged_out <;> cases sparse_out <;> simp [partial_crossing]
  · subst h
    cases sparse_out <;> simp [partial_crossing]

theorem partial_crossing_ragged_error {separator : String}
    (hs : separator ≠ "_X_") (sparse_out : Bool) (batch : Nat)
    (s : List Column) :
    partial_crossing separator true sparse_out batch s =
      Except.error (ragged_sep_msg separator) := by
  simp [partial_crossing, hs]

theorem crossSubsets_ok {separator : String} {ragged_out : Bool}
    (sparse_out : Bool) (h : separator = "_X_" ∨ ragged_out = false)
    (batch : Nat) :
    ∀ ss : List (List Column),
      crossSubsets separator ragged_out sparse_out batch ss =
        Except.ok (ss.map (crossRows separator batch))
  | [] => rfl
  | s :: rest => by
      simp only [crossSubsets, partial_crossing_ok sparse_out h,
        crossSubsets_ok sparse_out h batch rest, List.map_cons]

theorem depthLoop_ok {separator : String} {ragged_out : Bool}
    (sparse_out : Bool) (h : separator = "_X_" ∨ ragged_out = false)
    (batch : Nat) (inputs : List Column) :
    ∀ depths : List Nat, (∀ d ∈ depths, d ≤ inputs.length) →
      depthLoop separator ragged_out sparse_out batch inputs depths =
        Except.ok ((depths.flatMap (fun d => combinations d inputs)).map
          (crossRows separator batch))
  | [], _ => rfl
  | d :: rest, hd => by
      have h1 : ¬ inputs.length < d :=
        Nat.not_lt.mpr (hd d (List.mem_cons_self d rest))
      simp only [depthLoop, if_neg h1, crossSubsets_ok sparse_out h,
        depthLoop_ok sparse_out h batch inputs rest
          (fun d' hd' => hd d' (List.mem_cons_of_mem d hd')),
        List.flatMap_cons, List.map_append]

theorem depthLoop_error {separator : String} {ragged_out : Bool}
    (sparse_out : Bool) (h : separator = "_X_" ∨ ragged_out = false)
    (batch : Nat) (inputs : List Column) :
    ∀ depths : List Nat, (∃ d ∈ depths, inputs.length < d) →
      ∃ d ∈ depths, inputs.length < d ∧
        depthLoop separator ragged_out sparse_out batch inputs depths =
          Except.error (depth_error_msg inputs.length d)
  | [], hex => absurd hex (by simp)
  | d :: rest, hex => by
      by_cases hd : inputs.length < d
      · exact ⟨d, List.mem_cons_self d rest, hd,
          by simp only [depthLoop, if_pos hd]⟩
      · have hrest : ∃ d' ∈ rest, inputs.length < d' := by
          rcases hex with ⟨d', hmem, hlt⟩
          rcases List.mem_cons.mp hmem with rfl | hmem'
          · exact absurd hlt hd
          · exact ⟨d', hmem', hlt⟩
        rcases depthLoop_error sparse_out h batch inputs rest hrest with
          ⟨d', hmem', hlt', heq⟩
        refine ⟨d', List.mem_cons_of_mem d hmem', hlt', ?_⟩
        simp only [depthLoop, if_neg hd, crossSubsets_ok sparse_out h, heq]

theorem effectiveDepths_ne_nil (depth : DepthSpec) (separator : String)
    (inputs : List Column) :
    effectiveDepths (init depth separator) inputs ≠ [] := by
  unfold effectiveDepths
  cases depth with
  | none => simp [init, DepthSpec.truthy]
  | int d =>
      by_cases hd : d = 0
      · subst hd
        simp [init, DepthSpec.truthy]
      · simp [init, DepthSpec.truthy, DepthSpec.depthTuple, hd,
          List.range'_eq_nil]
  | list ds =>
      cases ds with
      | nil => simp [init, DepthSpec.truthy]
      | cons d ds' => simp [init, DepthSpec.truthy, DepthSpec.depthTuple]

theorem callOutputs_ok (depth : DepthSpec) (separator : String)
    (inputs : List Column)
    (hsep : separator = "_X_" ∨ ∀ c ∈ inputs, c.rep ≠ Rep.ragged)
    (hdepths : ∀ d ∈ effectiveDepths (init depth separator) inputs,
      d ≤ inputs.length) :
    callOutputs (init depth separator) inputs =
      Except.ok (((effectiveDepths (init depth separator) inputs).flatMap
        (fun d => combinations d inputs)).map
          (crossRows separator (batchOf inputs))) := by
  have h' : separator = "_X_" ∨ (inputs.any fun c => c.rep.isRagged) = false := by
    rcases hsep with h | h
    · exact Or.inl h
    · exact Or.inr (any_isRagged_eq_false h)
  exact depthLoop_ok _ h' (batchOf inputs) inputs _ hdepths

theorem callOutputs_falsy (depth : DepthSpec) (separator : String)
    (inputs : List Column) (hfal : depth.truthy = false)
    (hsep : separator = "_X_" ∨ ∀ c ∈ inputs, c.rep ≠ Rep.ragged) :
    callOutputs (init depth separator) inputs =
      Except.ok [crossRows separator (batchOf inputs) inputs] := by
  have hdep : effectiveDepths (init depth separator) inputs = [inputs.length] := by
    simp [effectiveDepths, init, hfal]
  have h := callOutputs_ok depth separator inputs hsep (by
    rw [hdep]
    simp)
  rw [hdep] at h
  simpa [combinations_length_self] using h

theorem sum_range'_eq_sum_Icc (f : Nat → Nat) :
    ∀ D : Nat, ((List.range' 1 D).map f).sum = ∑ d ∈ Finset.Icc 1 D, f d
  | 0 => by simp
  | D + 1 => by
      rw [List.range'_concat, List.map_append, List.sum_append,
        sum_range'_eq_sum_Icc f D, Finset.sum_Icc_succ_top (by omega)]
      simp [Nat.add_comm]

/-! ### Facts about `compute_output_shape` -/

theorem find_batch_rank_error :
    ∀ (shapes : List (List (Option Nat))) (b : Option Nat),
      (∃ s ∈ shapes, s.length ≠ 2) →
      find_batch b shapes = Except.error rank2_msg
  | [], _, hex => absurd hex (by simp)
  | s :: rest, b, hex => by
      by_cases hs : s.length ≠ 2
      · simp only [find_batch, if_pos hs]
      · have hrest : ∃ s' ∈ rest, s'.length ≠ 2 := by
          rcases hex with ⟨s', hmem, hlen⟩
          rcases List.mem_cons.mp hmem with rfl | hmem'
          · exact absurd hlen hs
          · exact ⟨s', hmem', hlen⟩
        simp only [find_batch, if_neg hs]
        exact find_batch_rank_error rest _ hrest

theorem find_batch_some (k : Nat) :
    ∀ shapes : List (List (Option Nat)), (∀ s ∈ shapes, s.length = 2) →
      find_batch (Option.some k) shapes = Except.ok (Option.some k)
  | [], _ => rfl
  | s :: rest, h => by
      have hs : ¬ s.length ≠ 2 := by simp [h s (List.mem_cons_self s rest)]
      simp only [find_batch, if_neg hs, Option.isNone_some, Bool.false_eq_true,
        if_false]
      exact find_batch_some k rest fun s' hs' => h s' (List.mem_cons_of_mem s hs')

theorem find_batch_uniform (b : Option Nat) :
    ∀ shapes : List (List (Option Nat)), shapes ≠ [] →
      (∀ s ∈ shapes, s.length = 2) →
      (∀ s ∈ shapes, s.getD 0 Option.none = b) →
      find_batch Option.none shapes = Except.ok b
  | [], hne, _, _ => absurd rfl hne
  | s :: rest, _, h2, hb => by
      have hs : ¬ s.length ≠ 2 := by simp [h2 s (List.mem_cons_self s rest)]
      have hsb : s.getD 0 Option.none = b := hb s (List.mem_cons_self s rest)
      simp only [find_batch, if_neg hs, Option.isNone_none, if_true]
      rw [hsb]
      cases b with
      | none =>
          cases rest with
          | nil => rfl
          | cons s' rest' =>
              exact find_batch_uniform Option.none (s' :: rest') (by simp)
                (fun t ht => h2 t (List.mem_cons_of_mem s ht))
                (fun t ht => hb t (List.mem_cons_of_mem s ht))
      | some k =>
          exact find_batch_some k rest
            fun t ht => h2 t (List.mem_cons_of_mem s ht)

/-! ### The claims -/

/-- C1: for a configured integer depth `D ≥ 1` and `n = inputs.length ≥ D`
columns, the call enumerates, for each depth `d = 1..D` in ascending order,
exactly the size-`d` combinations of column indices in lexicographic index
order, producing one output column per subset; the number of per-subset
output columns is `∑ d = 1..D, C(n, d)`. -/
theorem C1_integer_depth_plan (D : Nat) (separator : String)
    (inputs : List Column) (hD : 1 ≤ D) (hDn : D ≤ inputs.length)
    (hsep : separator = "_X_" ∨ ∀ c ∈ inputs, c.rep ≠ Rep.ragged) :
    effectiveDepths (init (DepthSpec.int D) separator) inputs =
      List.range' 1 D ∧
    (List.range' 1 D).Pairwise (· < ·) ∧
    (∀ d : Nat, ∀ s : List Nat,
      s ∈ combinations d (List.range inputs.length) ↔
        s.Sublist (List.range inputs.length) ∧ s.length = d) ∧
    (∀ d : Nat,
      (combinations d (List.range inputs.length)).Pairwise
        (List.Lex (· < ·))) ∧
    (∀ d : Nat, combinations d inputs =
      (combinations d (List.range inputs.length)).map
        (fun idxs => idxs.map (fun i => inputs.getD i ⟨Rep.dense, []⟩))) ∧
    ∃ outs, callOutputs (init (DepthSpec.int D) separator) inputs =
        Except.ok outs ∧
      outs = (plannedSubsets (init (DepthSpec.int D) separator) inputs).map
        (crossRows separator (batchOf inputs)) ∧
      outs.length = ∑ d ∈ Finset.Icc 1 D, Nat.choose inputs.length d := by
  have hD0 : D ≠ 0 := by omega
  have hdep : effectiveDepths (init (DepthSpec.int D) separator) inputs =
      List.range' 1 D := by
    simp [effectiveDepths, init, DepthSpec.truthy, DepthSpec.depthTuple, hD0]
  have hle : ∀ d ∈ List.range' 1 D, d ≤ inputs.length := by
    intro d hd
    have := List.mem_range'_1.mp hd
    omega
  have hok := callOutputs_ok (DepthSpec.int D) separator inputs hsep
    (by rw [hdep]; exact hle)
  refine ⟨hdep, ?_, fun d s => mem_combinations d (List.range inputs.length) s,
    fun d => pairwise_lex_combinations d (List.range inputs.length)
      (List.pairwise_lt_range inputs.length),
    ?_, ?_⟩
  · exact (List.pairwise_lt_range' 1 D).imp fun h => h
  · intro d
    conv_lhs =>
      rw [← map_getD_range (⟨Rep.dense, []⟩ : Column) inputs,
        combinations_map]
  · refine ⟨_, hok, ?_, ?_⟩
    · rfl
    · rw [List.length_map, hdep, List.length_flatMap,
        ← sum_range'_eq_sum_Icc (fun d => Nat.choose inputs.length d) D]
      congr 1
      simp [Function.comp_def, length_combinations]

/-- C1 witness at `D = 2` with the three documentation columns. -/
theorem C1_witness :
    effectiveDepths (init (DepthSpec.int 2) "_X_") exInputs =
      List.range' 1 2 ∧
    ∃ outs, callOutputs (init (DepthSpec.int 2) "_X_") exInputs =
        Except.ok outs ∧
      outs = (plannedSubsets (init (DepthSpec.int 2) "_X_") exInputs).map
        (crossRows "_X_" (batchOf exInputs)) ∧
      outs.length = ∑ d ∈ Finset.Icc 1 2, Nat.choose exInputs.length d :=
  ⟨(C1_integer_depth_plan 2 "_X_" exInputs (by decide) (by decide)
      (Or.inl rfl)).1,
   (C1_integer_depth_plan 2 "_X_" exInputs (by decide) (by decide)
      (Or.inl rfl)).2.2.2.2.2⟩

/-- C2 counterexample: with `a=[[1],[4]]`, `b=[[2],[5]]`, `c=[[3],[6]]` and
`depth=2`, the fifth output column is `['1_X_3'],['4_X_6']` (lexicographic
combination order), not `['2_X_3'],['5_X_6']` as the claim orders them. -/
theorem C2_counterexample :
    callOutputs (init (DepthSpec.int 2) "_X_") exInputs =
      Except.ok [[["1"], ["4"]], [["2"], ["5"]], [["3"], ["6"]],
        [["1_X_2"], ["4_X_5"]], [["1_X_3"], ["4_X_6"]],
        [["2_X_3"], ["5_X_6"]]] ∧
    ([[["1"], ["4"]], [["2"], ["5"]], [["3"], ["6"]],
        [["1_X_2"], ["4_X_5"]], [["1_X_3"], ["4_X_6"]],
        [["2_X_3"], ["5_X_6"]]] : List (List (List String))) ≠
      [[["1"], ["4"]], [["2"], ["5"]], [["3"], ["6"]],
        [["1_X_2"], ["4_X_5"]], [["2_X_3"], ["5_X_6"]],
        [["1_X_3"], ["4_X_6"]]] :=
  ⟨rfl, by decide⟩

/-- C2 (amended): with the documentation inputs and `depth=2` the call
produces six output columns, in lexicographic combination order
`1; 2; 3; 1_X_2; 1_X_3; 2_X_3`, and concatenates them in that order. -/
theorem C2_six_columns :
    callOutputs (init (DepthSpec.int 2) "_X_") exInputs =
      Except.ok [[["1"], ["4"]], [["2"], ["5"]], [["3"], ["6"]],
        [["1_X_2"], ["4_X_5"]], [["1_X_3"], ["4_X_6"]],
        [["2_X_3"], ["5_X_6"]]] ∧
    call (init (DepthSpec.int 2) "_X_") exInputs =
      Except.ok (Rep.dense,
        [["1", "2", "3", "1_X_2", "1_X_3", "2_X_3"],
         ["4", "5", "6", "4_X_5", "4_X_6", "5_X_6"]]) :=
  ⟨rfl, rfl⟩

/-- C3 counterexample: the depth value `0` is less than `1`, yet a call with
`depth=[0]` on two columns passes the call-time check and returns output
columns instead of failing. -/
theorem C3_counterexample :
    (0 : Nat) < 1 ∧
    (0 : Nat) ∈ effectiveDepths (init (DepthSpec.list [0]) "_X_") [exA, exB] ∧
    callOutputs (init (DepthSpec.list [0]) "_X_") [exA, exB] =
      Except.ok [[[""], [""]]] :=
  ⟨by decide, by decide, rfl⟩

/-- C3 (amended): whenever some depth value in the effective depth tuple
exceeds the number of input columns, the call fails at call time with a
`ValueError` naming the offending depth and the available column count, and
produces no output; depth values below `1` are not checked. -/
theorem C3_depth_exceeds_columns (depth : DepthSpec) (separator : String)
    (inputs : List Column)
    (hsep : separator = "_X_" ∨ ∀ c ∈ inputs, c.rep ≠ Rep.ragged)
    (hbad : ∃ d ∈ effectiveDepths (init depth separator) inputs,
      inputs.length < d) :
    ∃ d ∈ effectiveDepths (init depth separator) inputs,
      inputs.length < d ∧
      callOutputs (init depth separator) inputs =
        Except.error (depth_error_msg inputs.length d) ∧
      call (init depth separator) inputs =
        Except.error (depth_error_msg inputs.length d) := by
  have h' : separator = "_X_" ∨ (inputs.any fun c => c.rep.isRagged) = false := by
    rcases hsep with h | h
    · exact Or.inl h
    · exact Or.inr (any_isRagged_eq_false h)
  rcases depthLoop_error (!(inputs.any fun c => c.rep.isRagged) &&
      (inputs.any fun c => c.rep.isSparse)) h' (batchOf inputs) inputs
      (effectiveDepths (init depth separator) inputs) hbad with
    ⟨d, hmem, hlt, heq⟩
  have hco : callOutputs (init depth separator) inputs =
      Except.error (depth_error_msg inputs.length d) := heq
  refine ⟨d, hmem, hlt, hco, ?_⟩
  unfold call
  rw [hco]

/-- C3 witness: depth `5` requested with only `3` input columns fails with
the depth/column-count error. -/
theorem C3_witness :
    ∃ d ∈ effectiveDepths (init (DepthSpec.int 5) "_X_") exInputs,
      exInputs.length < d ∧
      callOutputs (init (DepthSpec.int 5) "_X_") exInputs =
        Except.error (depth_error_msg exInputs.length d) ∧
      call (init (DepthSpec.int 5) "_X_") exInputs =
        Except.error (depth_error_msg exInputs.length d) :=
  C3_depth_exceeds_columns (DepthSpec.int 5) "_X_" exInputs (Or.inl rfl)
    (by decide)

theorem depthLoop_ragged_error {separator : String} (hs : separator ≠ "_X_")
    (sparse_out : Bool) (batch : Nat) (inputs : List Column)
    (d₁ : Nat) (rest : List Nat) (hd₁ : d₁ ≤ inputs.length) :
    depthLoop separator true sparse_out batch inputs (d₁ :: rest) =
      Except.error (ragged_sep_msg separator) := by
  obtain ⟨s, ss, hcomb⟩ :=
    List.exists_cons_of_ne_nil (combinations_ne_nil hd₁)
  simp only [depthLoop, if_neg (Nat.not_lt.mpr hd₁), hcomb, crossSubsets,
    partial_crossing_ragged_error hs]

/-- C4: when some input column is ragged (so the output representation is
ragged) and every requested depth fits the column count, a non-default
separator makes the call fail with the separator/representation error, while
the default separator succeeds. -/
theorem C4_ragged_separator (depth : DepthSpec) (separator : String)
    (inputs : List Column)
    (hragged : ∃ c ∈ inputs, c.rep = Rep.ragged)
    (hdepths : ∀ d ∈ effectiveDepths (init depth separator) inputs,
      d ≤ inputs.length) :
    (separator ≠ "_X_" →
      callOutputs (init depth separator) inputs =
        Except.error (ragged_sep_msg separator)) ∧
    (separator = "_X_" →
      ∃ outs, callOutputs (init depth separator) inputs = Except.ok outs) := by
  constructor
  · intro hs
    obtain ⟨d₁, rest, hcons⟩ :=
      List.exists_cons_of_ne_nil (effectiveDepths_ne_nil depth separator inputs)
    have hd₁ : d₁ ≤ inputs.length :=
      hdepths d₁ (by rw [hcons]; exact List.mem_cons_self d₁ rest)
    have hco : callOutputs (init depth separator) inputs =
        depthLoop separator true false (batchOf inputs) inputs (d₁ :: rest) := by
      unfold callOutputs
      rw [hcons]
      simp only [init, any_isRagged_eq_true hragged, Bool.not_true,
        Bool.false_and]
    rw [hco]
    exact depthLoop_ragged_error hs false (batchOf inputs) inputs d₁ rest hd₁
  · intro hs
    subst hs
    exact ⟨_, callOutputs_ok depth "_X_" inputs (Or.inl rfl) hdepths⟩

/-- C4 witness: one ragged column; separator `-` fails, the default
separator succeeds. -/
theorem C4_witness :
    callOutputs (init DepthSpec.none "-") [exRagged] =
      Except.error (ragged_sep_msg "-") ∧
    ∃ outs, callOutputs (init DepthSpec.none "_X_") [exRagged] =
      Except.ok outs :=
  ⟨(C4_ragged_separator DepthSpec.none "-" [exRagged] (by decide)
      (by decide)).1 (by decide),
   (C4_ragged_separator DepthSpec.none "_X_" [exRagged] (by decide)
      (by decide)).2 rfl⟩

/-- C5: with `depth` absent the call crosses exactly one subset, all columns
in their original order; on the documentation inputs with the default
separator the output is `[['1_X_2_X_3'], ['4_X_5_X_6']]`. -/
theorem C5_depth_absent (separator : String) (inputs : List Column)
    (hsep : separator = "_X_" ∨ ∀ c ∈ inputs, c.rep ≠ Rep.ragged) :
    effectiveDepths (init DepthSpec.none separator) inputs =
      [inputs.length] ∧
    combinations inputs.length inputs = [inputs] ∧
    callOutputs (init DepthSpec.none separator) inputs =
      Except.ok [crossRows separator (batchOf inputs) inputs] ∧
    call (init DepthSpec.none "_X_") exInputs =
      Except.ok (Rep.dense, [["1_X_2_X_3"], ["4_X_5_X_6"]]) :=
  ⟨rfl, combinations_length_self inputs,
   callOutputs_falsy DepthSpec.none separator inputs rfl hsep, rfl⟩

/-- C5 witness at the documentation inputs. -/
theorem C5_witness :
    callOutputs (init DepthSpec.none "_X_") exInputs =
      Except.ok [crossRows "_X_" (batchOf exInputs) exInputs] :=
  (C5_depth_absent "_X_" exInputs (Or.inl rfl)).2.2.1

/-- C6: the number of cross tokens produced for one example and one subset
equals the product of the lengths of that example's per-column value lists;
in particular it is `0` when any of those lists is empty. -/
theorem C6_token_count (separator : String) (batch : Nat)
    (cols : List Column) (i : Nat) (hi : i < batch) :
    ((crossRows separator batch cols).getD i []).length =
      (cols.map (fun c => (c.rows.getD i []).length)).prod ∧
    ((∃ c ∈ cols, c.rows.getD i [] = []) →
      ((crossRows separator batch cols).getD i []).length = 0) := by
  have hmain : ((crossRows separator batch cols).getD i []).length =
      (cols.map (fun c => (c.rows.getD i []).length)).prod := by
    rw [crossRows_getD hi, List.length_map, length_listProd, List.map_map]
    rfl
  refine ⟨hmain, fun hex => ?_⟩
  rw [hmain]
  rcases hex with ⟨c, hc, hnil⟩
  exact List.prod_eq_zero (List.mem_map.mpr ⟨c, hc, by rw [hnil]; rfl⟩)

/-- C6 witness: the ragged column's second example has no values, so that
example yields zero tokens. -/
theorem C6_witness :
    (1 : Nat) < 2 ∧
    ((crossRows "_X_" 2 [exRagged, exA]).getD 1 []).length =
      ([exRagged, exA].map (fun c => (c.rows.getD 1 []).length)).prod :=
  ⟨by decide, (C6_token_count "_X_" 2 [exRagged, exA] 1 (by decide)).1⟩

/-- C7: the output representation is ragged if any input is ragged, else
sparse if any input is sparse, else dense, and the final output concatenates
the per-subset output columns along the feature axis in subset order. -/
theorem C7_representation_and_concat (depth : DepthSpec) (separator : String)
    (inputs : List Column)
    (hsep : separator = "_X_" ∨ ∀ c ∈ inputs, c.rep ≠ Rep.ragged)
    (hdepths : ∀ d ∈ effectiveDepths (init depth separator) inputs,
      d ≤ inputs.length) :
    ∃ outs,
      callOutputs (init depth separator) inputs = Except.ok outs ∧
      outs = (plannedSubsets (init depth separator) inputs).map
        (crossRows separator (batchOf inputs)) ∧
      call (init depth separator) inputs =
        Except.ok (outputRep inputs, concatCols (batchOf inputs) outs) ∧
      ((∃ c ∈ inputs, c.rep = Rep.ragged) → outputRep inputs = Rep.ragged) ∧
      ((∀ c ∈ inputs, c.rep ≠ Rep.ragged) →
        (∃ c ∈ inputs, c.rep = Rep.sparse) →
        outputRep inputs = Rep.sparse) ∧
      ((∀ c ∈ inputs, c.rep = Rep.dense) → outputRep inputs = Rep.dense) ∧
      (∀ i : Nat, i < batchOf inputs →
        (concatCols (batchOf inputs) outs).getD i [] =
          (outs.map (fun o => o.getD i [])).flatten) := by
  have hok := callOutputs_ok depth separator inputs hsep hdepths
  refine ⟨_, hok, rfl, ?_, ?_, ?_, ?_, ?_⟩
  · unfold call
    rw [hok]
  · intro hr
    simp [outputRep, any_isRagged_eq_true hr]
  · intro hnr hs
    rcases hs with ⟨c, hc, hcs⟩
    have hsp : (inputs.any fun c => c.rep.isSparse) = true :=
      List.any_eq_true.mpr ⟨c, hc, isSparse_iff.mpr hcs⟩
    simp [outputRep, any_isRagged_eq_false hnr, hsp]
  · intro hall
    have h1 : (inputs.any fun c => c.rep.isRagged) = false :=
      any_isRagged_eq_false fun c hc => by simp [hall c hc]
    have h2 : (inputs.any fun c => c.rep.isSparse) = false := by
      simp only [List.any_eq_false]
      intro c hc
      simp [isSparse_iff, hall c hc]
    simp [outputRep, h1, h2]
  · intro i hi
    unfold concatCols
    rw [List.getD_eq_getElem _ _ (by simpa using hi), List.getElem_map,
      List.getElem_range]

/-- C7 witness at the documentation inputs with `depth=2`. -/
theorem C7_witness :
    ∃ outs, callOutputs (init (DepthSpec.int 2) "_X_") exInputs =
      Except.ok outs ∧
    call (init (DepthSpec.int 2) "_X_") exInputs =
      Except.ok (outputRep exInputs, concatCols (batchOf exInputs) outs) := by
  obtain ⟨outs, h1, -, h3, -⟩ := C7_representation_and_concat
    (DepthSpec.int 2) "_X_" exInputs (Or.inl rfl) (by decide)
  exact ⟨outs, h1, h3⟩

/-- C8: exporting the configuration and constructing a new instance from the
exported depth and separator yields an instance with identical depth and
separator (indeed an identical instance). -/
theorem C8_config_roundtrip (depth : DepthSpec) (separator : String) :
    init (get_config (init depth separator)).depth
        (get_config (init depth separator)).separator =
      init depth separator ∧
    (init (get_config (init depth separator)).depth
        (get_config (init depth separator)).separator).depth = depth ∧
    (init (get_config (init depth separator)).depth
        (get_config (init depth separator)).separator).separator =
      separator :=
  ⟨rfl, rfl, rfl⟩

/-- C9: `compute_output_shape` rejects any declared input shape of rank
other than 2 and otherwise returns `[batch_size, None]` with the inputs'
shared batch dimension. -/
theorem C9_output_shape (shapes : List (List (Option Nat))) (b : Option Nat)
    (hne : shapes ≠ [])
    (hb : ∀ s ∈ shapes, s.getD 0 Option.none = b) :
    ((∃ s ∈ shapes, s.length ≠ 2) →
      compute_output_shape shapes = Except.error rank2_msg) ∧
    ((∀ s ∈ shapes, s.length = 2) →
      compute_output_shape shapes = Except.ok [b, Option.none]) := by
  constructor
  · intro hex
    unfold compute_output_shape
    rw [find_batch_rank_error shapes Option.none hex]
  · intro h2
    unfold compute_output_shape
    rw [find_batch_uniform b shapes hne h2 hb]

/-- C9 witness: two rank-2 shapes with batch dimension 2. -/
theorem C9_witness :
    compute_output_shape
        [[Option.some 2, Option.none], [Option.some 2, Option.some 5]] =
      Except.ok [Option.some 2, Option.none] :=
  (C9_output_shape [[Option.some 2, Option.none],
      [Option.some 2, Option.some 5]] (Option.some 2)
    (by decide) (by decide)).2 (by decide)

/-- C10: configured depth `0` or an empty list is falsy, so the call behaves
exactly as if depth were absent: all columns are crossed together into a
single output column and no error is raised. -/
theorem C10_falsy_depth (separator : String) (inputs : List Column)
    (hsep : separator = "_X_" ∨ ∀ c ∈ inputs, c.rep ≠ Rep.ragged) :
    call (init (DepthSpec.int 0) separator) inputs =
      call (init DepthSpec.none separator) inputs ∧
    call (init (DepthSpec.list []) separator) inputs =
      call (init DepthSpec.none separator) inputs ∧
    callOutputs (init (DepthSpec.int 0) separator) inputs =
      Except.ok [crossRows separator (batchOf inputs) inputs] ∧
    callOutputs (init (DepthSpec.list []) separator) inputs =
      Except.ok [crossRows separator (batchOf inputs) inputs] :=
  ⟨rfl, rfl,
   callOutputs_falsy (DepthSpec.int 0) separator inputs rfl hsep,
   callOutputs_falsy (DepthSpec.list []) separator inputs rfl hsep⟩

/-- C10 witness at the documentation inputs. -/
theorem C10_witness :
    call (init (DepthSpec.int 0) "_X_") exInputs =
      call (init DepthSpec.none "_X_") exInputs ∧
    callOutputs (init (DepthSpec.int 0) "_X_") exInputs =
      Except.ok [crossRows "_X_" (batchOf exInputs) exInputs] :=
  ⟨(C10_falsy_depth "_X_" exInputs (Or.inl rfl)).1,
   (C10_falsy_depth "_X_" exInputs (Or.inl rfl)).2.2.1⟩

end CategoryCrossing
